import Mathlib

/-!
Verification of the ESLint configuration-extension resolver and merge engine
of the `ng-add` schematic (file `ng-add.schematic.ts`).

The embedded code is the `configureESLint(workspace)` rule: for every project
root of the workspace, and then for the workspace root itself, the recursive
helper `addPrettierPluginToESLintConfig` is invoked on the candidate path
`<root>/.eslintrc.json`.  The helper skips paths already recorded in the
`updatedESLintConfigs` memo, skips absent files, follows a truthy `extends`
field (resolved against the directory of the current file with `path.dirname`
and `normalize`), throws when an `extends` target is missing, and otherwise
appends the directive `"prettier"` to `overrides.extends` (creating the
`overrides` object and its `extends` array when absent), writes the file back,
and records the path in the memo.  After all starting points are processed the
rule throws when the memo is empty.

Two aspects of the path handling are modelled exactly because behaviour
depends on them: `normalize` (from `@angular-devkit/core`) keeps a path
absolute when it starts with a slash, while the virtual `Tree` canonicalises
every path it receives against the root (`normalize('/' + path)`), and the
`updatedESLintConfigs` memo is a plain object keyed by the raw path strings.
Hence two different spellings of the same file (for example
`"/.eslintrc.json"` from a project with root `""`, and `".eslintrc.json"`
from the workspace-root invocation) address one tree entry but two memo keys.

Machine integers do not occur; strings and lists model the JavaScript values
directly.  The source recursion has no depth bound, so the embedding takes an
explicit fuel parameter that is consumed only at recursive `extends` hops;
exhaustion is reported with the distinguished result `outOfFuel`, which
corresponds to no behaviour of the source other than non-termination of the
recursion (the source throws no such error).
-/

namespace NgAddSchematic

/-- Overrides block of an ESLint configuration, as the code manipulates it:
an optional `extends` array plus arbitrary further fields, which the merge
never touches (they are carried as uninterpreted key/value pairs). -/
structure ESLintOverrides where
  extendsList : Option (List String)
  otherFields : List (String × String)
deriving DecidableEq

/-- An ESLint configuration file as parsed by `readJsonFile`: the optional
top-level `extends` path, the optional `overrides` block, arbitrary further
top-level fields, and the embedded comments that the comment-tolerant parser
(`comment-json`) attaches to the parsed value and re-emits on stringify.
Fields other than `overrides` are uninterpreted payload for the merge. -/
structure ESLintConfig where
  extendsField : Option String
  overrides : Option ESLintOverrides
  otherFields : List (String × String)
  comments : List String
deriving DecidableEq

/-- Result of parsing a missing file: `readJsonFile` returns `{}`. -/
def emptyConfig : ESLintConfig :=
  { extendsField := none, overrides := none, otherFields := [], comments := [] }

/-- Empty overrides block, as created by `eslintConfig.overrides || {}`. -/
def emptyOverrides : ESLintOverrides :=
  { extendsList := none, otherFields := [] }

/-- The override-extension list of a configuration, reading absent structures
as empty (the view under which the merge appends). -/
def overridesExtList (config : ESLintConfig) : List String :=
  ((config.overrides.getD emptyOverrides).extendsList).getD []

/-- Splits a character list into path segments at `'/'`; `cur` holds the
characters of the current segment in reverse. -/
def splitSegsAux : List Char → List Char → List String
  | [], cur => [String.mk cur.reverse]
  | c :: cs, cur =>
    if c = '/' then String.mk cur.reverse :: splitSegsAux cs []
    else splitSegsAux cs (c :: cur)

/-- Path segments of a string (split at `'/'`, keeping empty segments). -/
def splitSegs (s : String) : List String := splitSegsAux s.data []

/-- Joins path segments with `'/'`. -/
def joinSegs : List String → String
  | [] => ""
  | [seg] => seg
  | seg :: rest => seg ++ "/" ++ joinSegs rest

/-- Embedding of Node's `path.dirname` for the paths the schematic produces:
everything before the last slash, `"."` when there is no slash, `"/"` for a
top-level absolute path. -/
def dirname (p : String) : String :=
  let parts := splitSegs p
  if parts.length ≤ 1 then "."
  else
    match parts.dropLast with
    | [""] => "/"
    | rest => joinSegs rest

/-- Segment-level worker of `normalize`: drops empty and `"."` segments and
lets `".."` cancel the preceding segment, keeping leading `".."` runs.
`acc` holds the processed segments in reverse. -/
def normalizeSegments : List String → List String → List String
  | acc, [] => acc.reverse
  | acc, seg :: rest =>
    if seg = "" ∨ seg = "." then normalizeSegments acc rest
    else if seg = ".." then
      match acc with
      | [] => normalizeSegments [".."] rest
      | top :: below =>
        if top = ".." then normalizeSegments (".." :: acc) rest
        else normalizeSegments below rest
    else normalizeSegments (seg :: acc) rest

/-- Tests whether the segment list came from a path with a leading slash
(an absolute path in the sense of `@angular-devkit/core`). -/
def isAbsoluteSegs : List String → Bool
  | "" :: _ :: _ => true
  | _ => false

/-- Embedding of `normalize` from `@angular-devkit/core`: resolves `"."` and
`".."` segments, drops empty segments, and keeps the path absolute exactly
when it starts with a slash. -/
def normalize (p : String) : String :=
  let segs := splitSegs p
  let core := joinSegs (normalizeSegments [] segs)
  if isAbsoluteSegs segs then "/" ++ core else core

/-- Canonical tree address of a path: the virtual `Tree` resolves every path
it is given against the root, `normalize('/' + path)`, so differently spelled
paths can address the same entry. -/
def canonPath (p : String) : String := normalize ("/" ++ p)

/-- The virtual file tree restricted to ESLint configuration files: an
association list from canonical path to parsed content, first binding wins. -/
abbrev FileTree := List (String × ESLintConfig)

/-- Existence check of the virtual tree (`tree.exists(path)`); the queried
path is canonicalised as the tree host does. -/
def treeExists : FileTree → String → Bool
  | [], _ => false
  | entry :: rest, p => if entry.1 = canonPath p then true else treeExists rest p

/-- Read of the virtual tree: content of the first binding of the
canonicalised path. -/
def treeRead : FileTree → String → Option ESLintConfig
  | [], _ => none
  | entry :: rest, p => if entry.1 = canonPath p then some entry.2 else treeRead rest p

/-- Write to the virtual tree (`writeTextFile`): overwrite the binding of the
canonicalised path when it exists, create it otherwise. -/
def treeWrite : FileTree → String → ESLintConfig → FileTree
  | [], p, c => [(canonPath p, c)]
  | entry :: rest, p, c =>
    if entry.1 = canonPath p then (canonPath p, c) :: rest
    else entry :: treeWrite rest p c

/-- Embedding of `readJsonFile`: parse the file when it exists, return the
empty object otherwise. -/
def readJsonFile (tree : FileTree) (path : String) : ESLintConfig :=
  match treeRead tree path with
  | some config => config
  | none => emptyConfig

/-- JavaScript truthiness of the optional `extends` string: absent and the
empty string are falsy. -/
def strTruthy : Option String → Bool
  | none => false
  | some s => if s = "" then false else true

/-- The merge performed on a terminal file: `overrides = overrides || {}`,
`overrides.extends = overrides.extends || []`, `overrides.extends.push('prettier')`.
All other parts of the configuration are carried over unchanged. -/
def mergeConfig (config : ESLintConfig) : ESLintConfig :=
  let ov := config.overrides.getD emptyOverrides
  let exts := ov.extendsList.getD []
  { config with overrides := some { ov with extendsList := some (exts ++ ["prettier"]) } }

/-- Errors thrown by `configureESLint` (as `SchematicsException`s), plus the
fuel-exhaustion marker of the embedding.  `brokenExtendsChain` carries the
referencing file and the missing target, exactly the two paths the thrown
message interpolates. -/
inductive SchematicError where
  | brokenExtendsChain (referencingFile : String) (missingTarget : String)
  | noConfigurationFound
  | outOfFuel
deriving DecidableEq

/-- Mutable state of one run of the `configureESLint` rule: the virtual tree
(written in place) and the `updatedESLintConfigs` memo, recorded here in
chronological merge order (the source stores it as an object whose keys are
the raw, uncanonicalised path strings that were merged). -/
structure ResolveState where
  tree : FileTree
  updatedESLintConfigs : List String
deriving DecidableEq

/-- Outcome of a (partial) run: normal completion, or an abort by a thrown
exception.  Because the source mutates the tree in place and performs no
rollback, the abort constructor carries the state at the moment of the
throw. -/
inductive RunResult where
  | ok (st : ResolveState)
  | err (e : SchematicError) (st : ResolveState)
deriving DecidableEq

/-- State carried by a run outcome, whether or not the run aborted. -/
def RunResult.state : RunResult → ResolveState
  | .ok st => st
  | .err _ st => st

/-- Embedding of the recursive `addPrettierPluginToESLintConfig`.  The fuel
parameter is consumed only at a recursive `extends` hop; the source recursion
is unbounded, so `outOfFuel` marks runs the source would continue past the
given depth. -/
def addPrettierPluginToESLintConfig (fuel : Nat) (st : ResolveState)
    (eslintConfigPath : String) : RunResult :=
  if eslintConfigPath ∈ st.updatedESLintConfigs then
    .ok st
  else if treeExists st.tree eslintConfigPath then
    let eslintConfig := readJsonFile st.tree eslintConfigPath
    if strTruthy eslintConfig.extendsField then
      let parentFolder := dirname eslintConfigPath
      let extendsPath :=
        normalize (parentFolder ++ "/" ++ eslintConfig.extendsField.getD "")
      if treeExists st.tree extendsPath then
        match fuel with
        | 0 => .err .outOfFuel st
        | n + 1 => addPrettierPluginToESLintConfig n st extendsPath
      else
        .err (.brokenExtendsChain eslintConfigPath extendsPath) st
    else
      let newConfig := mergeConfig eslintConfig
      .ok { tree := treeWrite st.tree eslintConfigPath newConfig,
            updatedESLintConfigs := st.updatedESLintConfigs ++ [eslintConfigPath] }
  else
    .ok st

/-- A project of the workspace definition, reduced to the single field the
rule reads. -/
structure ProjectDefinition where
  root : String
deriving DecidableEq

/-- The workspace definition: its projects in iteration (insertion) order. -/
structure WorkspaceDefinition where
  projects : List ProjectDefinition
deriving DecidableEq

/-- The candidate file name used for every starting point. -/
def fileName : String := ".eslintrc.json"

/-- Candidate path of a project, built as in the source:
`normalize(`${project.root}/${fileName}`)`. -/
def projectConfigPath (project : ProjectDefinition) : String :=
  normalize (project.root ++ "/" ++ fileName)

/-- The `while ((project = projects.next().value))` loop of `configureESLint`:
one resolver invocation per project, threading the shared state, aborting on
the first thrown exception. -/
def configureESLintProjects (fuel : Nat) (st : ResolveState) :
    List ProjectDefinition → RunResult
  | [] => .ok st
  | project :: rest =>
    match addPrettierPluginToESLintConfig fuel st (projectConfigPath project) with
    | .ok st' => configureESLintProjects fuel st' rest
    | .err e st' => .err e st'

/-- Embedding of the `configureESLint` rule: the project loop, then the
workspace-root invocation, then the throw when the memo is empty. -/
def configureESLint (fuel : Nat) (workspace : WorkspaceDefinition)
    (tree : FileTree) : RunResult :=
  match configureESLintProjects fuel { tree := tree, updatedESLintConfigs := [] }
      workspace.projects with
  | .ok st1 =>
    match addPrettierPluginToESLintConfig fuel st1 fileName with
    | .ok st2 =>
      if st2.updatedESLintConfigs.isEmpty then .err .noConfigurationFound st2
      else .ok st2
    | .err e st2 => .err e st2
  | .err e st1 => .err e st1

/-- Resolver invocations folded over an explicit list of starting paths;
used to state the iteration policy of `configureESLint`. -/
def resolveSequence (fuel : Nat) (st : ResolveState) : List String → RunResult
  | [] => .ok st
  | path :: rest =>
    match addPrettierPluginToESLintConfig fuel st path with
    | .ok st' => resolveSequence fuel st' rest
    | .err e st' => .err e st'

/-- The starting points of one run, in order: one candidate path per project
(workspace iteration order), then the workspace-root file. -/
def startingPoints (workspace : WorkspaceDefinition) : List String :=
  workspace.projects.map projectConfigPath ++ [fileName]

/-- Observable outcome of the whole `ng-add` rule chain for the steps that
follow `configureESLint`.  The chain runs `configureESLint` first; a rule
that throws aborts the chain, so the dependent rules (dependency
installation, Prettier config and ignore files, VS Code settings, install
task) run exactly when `configureESLint` completes, recorded here as
performed-flags. -/
structure NgAddOutcome where
  eslintResult : RunResult
  prettierDependenciesAdded : Bool
  prettierConfigWritten : Bool
  prettierIgnoreWritten : Bool
  vsCodeConfigured : Bool
  packageInstallTaskScheduled : Bool
deriving DecidableEq

/-- Embedding of the `ngAdd` rule chain, restricted to the ESLint tree and
the performed-flags of the dependent steps. -/
def ngAdd (fuel : Nat) (workspace : WorkspaceDefinition) (tree : FileTree) :
    NgAddOutcome :=
  match configureESLint fuel workspace tree with
  | .ok st =>
    { eslintResult := .ok st, prettierDependenciesAdded := true,
      prettierConfigWritten := true, prettierIgnoreWritten := true,
      vsCodeConfigured := true, packageInstallTaskScheduled := true }
  | .err e st =>
    { eslintResult := .err e st, prettierDependenciesAdded := false,
      prettierConfigWritten := false, prettierIgnoreWritten := false,
      vsCodeConfigured := false, packageInstallTaskScheduled := false }

/-- A two-file workspace whose `extends` references form a cycle:
`a/.eslintrc.json` extends `../b/.eslintrc.json` and vice versa. -/
def cyclicTree : FileTree :=
  [("/a/.eslintrc.json",
     { extendsField := some "../b/.eslintrc.json", overrides := none,
       otherFields := [], comments := [] }),
   ("/b/.eslintrc.json",
     { extendsField := some "../a/.eslintrc.json", overrides := none,
       otherFields := [], comments := [] })]

/-- Fresh run state over the cyclic workspace. -/
def cyclicState : ResolveState := { tree := cyclicTree, updatedESLintConfigs := [] }

/-- A configuration whose `extends` names a file that is absent from the
tree (`missing.json` next to the referencing file). -/
def brokenCfg : ESLintConfig :=
  { extendsField := some "missing.json", overrides := none,
    otherFields := [], comments := [] }

/-- Two-project workspace tree in which the first project carries a terminal
configuration and the second a broken `extends` reference. -/
def brokenTree : FileTree :=
  [("/p1/.eslintrc.json", emptyConfig), ("/p2/.eslintrc.json", brokenCfg)]

/-- State at the moment the broken-chain exception is thrown on `brokenTree`:
the first project's file has already been merged and written. -/
def brokenAborted : ResolveState :=
  { tree := [("/p1/.eslintrc.json", mergeConfig emptyConfig),
             ("/p2/.eslintrc.json", brokenCfg)],
    updatedESLintConfigs := ["p1/.eslintrc.json"] }

/-- Fresh state over a one-file tree whose configuration has a broken
`extends` reference. -/
def brokenWitnessState : ResolveState :=
  { tree := [("/p/.eslintrc.json", brokenCfg)], updatedESLintConfigs := [] }

/-- Configuration whose override-extension list already holds `"foo"`. -/
def fooConfig : ESLintConfig :=
  { extendsField := none,
    overrides := some { extendsList := some ["foo"], otherFields := [] },
    otherFields := [], comments := [] }

/-- Fresh state over a tree holding only the workspace-root file with the
`["foo"]` override-extension list. -/
def fooState : ResolveState :=
  { tree := [("/.eslintrc.json", fooConfig)], updatedESLintConfigs := [] }

/-- Configuration carrying unrelated top-level fields, unrelated override
fields and embedded comments, used to observe the frame of the merge. -/
def framedConfig : ESLintConfig :=
  { extendsField := none,
    overrides := some { extendsList := some ["foo"],
                        otherFields := [("files", "*.ts")] },
    otherFields := [("root", "true"), ("rules", "custom")],
    comments := ["// workspace lint setup"] }

/-- Fresh state over a two-file tree whose root file is `framedConfig`. -/
def framedState : ResolveState :=
  { tree := [("/.eslintrc.json", framedConfig), ("/other/.eslintrc.json", emptyConfig)],
    updatedESLintConfigs := [] }

/-- Configuration A of the chain-following witness: the project file that
extends the workspace root. -/
def chainProjectCfg : ESLintConfig :=
  { extendsField := some "../../.eslintrc.json", overrides := none,
    otherFields := [], comments := [] }

/-- Tree of the chain-following witness: a project file extending the
workspace-root file. -/
def chainTree : FileTree :=
  [("/projects/my-lib/.eslintrc.json", chainProjectCfg),
   ("/.eslintrc.json", fooConfig)]

/-- State after `configureESLint` on the workspace-root-only tree: one run
has appended the directive once. -/
def runOnceState : ResolveState :=
  { tree := [("/.eslintrc.json", mergeConfig emptyConfig)],
    updatedESLintConfigs := [".eslintrc.json"] }

/-- State after a second complete `configureESLint` run over the tree of
`runOnceState`: the directive has been appended twice. -/
def runTwiceState : ResolveState :=
  { tree := [("/.eslintrc.json", mergeConfig (mergeConfig emptyConfig))],
    updatedESLintConfigs := [".eslintrc.json"] }

/-! ### Helper lemmas about the virtual tree -/

theorem treeRead_congr (t : FileTree) (p q : String) (h : canonPath p = canonPath q) :
    treeRead t p = treeRead t q := by
  induction t with
  | nil => rfl
  | cons entry rest ih =>
    simp only [treeRead, h, ih]

theorem treeExists_eq_isSome (t : FileTree) (p : String) :
    treeExists t p = (treeRead t p).isSome := by
  induction t with
  | nil => rfl
  | cons entry rest ih =>
    simp only [treeExists, treeRead]
    by_cases h : entry.1 = canonPath p
    · simp [h]
    · simp [h, ih]

theorem treeRead_treeWrite (t : FileTree) (p : String) (c : ESLintConfig) (q : String) :
    treeRead (treeWrite t p c) q =
      if canonPath q = canonPath p then some c else treeRead t q := by
  induction t with
  | nil =>
    by_cases h : canonPath q = canonPath p
    · simp [treeWrite, treeRead, h]
    · simp [treeWrite, treeRead, h, Ne.symm h]
  | cons entry rest ih =>
    by_cases h : entry.1 = canonPath p
    · by_cases hq : canonPath q = canonPath p
      · simp [treeWrite, treeRead, h, hq]
      · simp [treeWrite, treeRead, h, hq, Ne.symm hq]
    · by_cases hq : canonPath q = canonPath p
      · have hne : ¬ entry.1 = canonPath q := by rw [hq]; exact h
        simp [treeWrite, treeRead, h, hq, hne, ih]
      · simp [treeWrite, treeRead, h, hq, ih]

/-! ### Step lemmas for the resolver -/

theorem addPrettier_skip_mem (fuel : Nat) (st : ResolveState) (p : String)
    (hmem : p ∈ st.updatedESLintConfigs) :
    addPrettierPluginToESLintConfig fuel st p = .ok st := by
  unfold addPrettierPluginToESLintConfig
  rw [if_pos hmem]

theorem addPrettier_skip_missing (fuel : Nat) (st : ResolveState) (p : String)
    (hex : treeExists st.tree p = false) :
    addPrettierPluginToESLintConfig fuel st p = .ok st := by
  unfold addPrettierPluginToESLintConfig
  by_cases hmem : p ∈ st.updatedESLintConfigs
  · rw [if_pos hmem]
  · rw [if_neg hmem, hex]
    simp

theorem addPrettier_merge (fuel : Nat) (st : ResolveState) (p : String) (c : ESLintConfig)
    (hmem : p ∉ st.updatedESLintConfigs) (hread : treeRead st.tree p = some c)
    (hext : strTruthy c.extendsField = false) :
    addPrettierPluginToESLintConfig fuel st p =
      .ok { tree := treeWrite st.tree p (mergeConfig c),
            updatedESLintConfigs := st.updatedESLintConfigs ++ [p] } := by
  have hex : treeExists st.tree p = true := by
    rw [treeExists_eq_isSome, hread]; rfl
  unfold addPrettierPluginToESLintConfig
  rw [if_neg hmem, hex]
  simp only [readJsonFile, hread, hext, if_true, Bool.false_eq_true, if_false]

theorem addPrettier_broken (fuel : Nat) (st : ResolveState) (p : String) (c : ESLintConfig)
    (hmem : p ∉ st.updatedESLintConfigs) (hread : treeRead st.tree p = some c)
    (hext : strTruthy c.extendsField = true)
    (htgt : treeExists st.tree
      (normalize (dirname p ++ "/" ++ c.extendsField.getD "")) = false) :
    addPrettierPluginToESLintConfig fuel st p =
      .err (.brokenExtendsChain p (normalize (dirname p ++ "/" ++ c.extendsField.getD ""))) st := by
  have hex : treeExists st.tree p = true := by
    rw [treeExists_eq_isSome, hread]; rfl
  unfold addPrettierPluginToESLintConfig
  rw [if_neg hmem, hex]
  simp only [readJsonFile, hread, hext, htgt, if_true, Bool.false_eq_true, if_false]

theorem addPrettier_follow (fuel : Nat) (st : ResolveState) (p : String) (c : ESLintConfig)
    (hmem : p ∉ st.updatedESLintConfigs) (hread : treeRead st.tree p = some c)
    (hext : strTruthy c.extendsField = true)
    (htgt : treeExists st.tree
      (normalize (dirname p ++ "/" ++ c.extendsField.getD "")) = true) :
    addPrettierPluginToESLintConfig (fuel + 1) st p =
      addPrettierPluginToESLintConfig fuel st
        (normalize (dirname p ++ "/" ++ c.extendsField.getD "")) := by
  have hex : treeExists st.tree p = true := by
    rw [treeExists_eq_isSome, hread]; rfl
  conv_lhs => unfold addPrettierPluginToESLintConfig
  rw [if_neg hmem, hex]
  simp only [readJsonFile, hread, hext, htgt, if_true, Bool.false_eq_true, if_false]

/-! ### The iteration structure of the rule -/

theorem configureESLintProjects_eq (fuel : Nat) :
    ∀ (projects : List ProjectDefinition) (st : ResolveState),
    configureESLintProjects fuel st projects =
      resolveSequence fuel st (projects.map projectConfigPath) := by
  intro projects
  induction projects with
  | nil => intro st; rfl
  | cons project rest ih =>
    intro st
    simp only [configureESLintProjects, List.map, resolveSequence]
    cases h : addPrettierPluginToESLintConfig fuel st (projectConfigPath project) with
    | ok st' => exact ih st'
    | err e st' => rfl

theorem resolveSequence_append (fuel : Nat) :
    ∀ (l1 l2 : List String) (st : ResolveState),
    resolveSequence fuel st (l1 ++ l2) =
      match resolveSequence fuel st l1 with
      | .ok st' => resolveSequence fuel st' l2
      | .err e st' => .err e st' := by
  intro l1
  induction l1 with
  | nil => intro l2 st; rfl
  | cons path rest ih =>
    intro l2 st
    simp only [List.cons_append, resolveSequence]
    cases h : addPrettierPluginToESLintConfig fuel st path with
    | ok st' => exact ih l2 st'
    | err e st' => rfl

theorem configureESLint_eq_resolveSequence (fuel : Nat)
    (workspace : WorkspaceDefinition) (tree : FileTree) :
    configureESLint fuel workspace tree =
      match resolveSequence fuel { tree := tree, updatedESLintConfigs := [] }
          (startingPoints workspace) with
      | .ok st =>
        if st.updatedESLintConfigs.isEmpty then .err .noConfigurationFound st
        else .ok st
      | .err e st => .err e st := by
  unfold configureESLint startingPoints
  rw [resolveSequence_append, ← configureESLintProjects_eq]
  cases h : configureESLintProjects fuel
      { tree := tree, updatedESLintConfigs := [] } workspace.projects with
  | ok st1 =>
    cases h2 : addPrettierPluginToESLintConfig fuel st1 fileName with
    | ok st2 => simp [resolveSequence, h2]
    | err e st2 => simp [resolveSequence, h2]
  | err e st1 => rfl

/-! ### Divergence on a cyclic chain -/

theorem cyclic_run_exhausts (fuel : Nat) :
    addPrettierPluginToESLintConfig fuel cyclicState "a/.eslintrc.json" =
      .err .outOfFuel cyclicState ∧
    addPrettierPluginToESLintConfig fuel cyclicState "b/.eslintrc.json" =
      .err .outOfFuel cyclicState := by
  induction fuel with
  | zero => exact ⟨by decide, by decide⟩
  | succ n ih =>
    refine ⟨?_, ?_⟩
    · have step : addPrettierPluginToESLintConfig (n + 1) cyclicState "a/.eslintrc.json" =
        addPrettierPluginToESLintConfig n cyclicState "b/.eslintrc.json" := rfl
      rw [step]
      exact ih.2
    · have step : addPrettierPluginToESLintConfig (n + 1) cyclicState "b/.eslintrc.json" =
        addPrettierPluginToESLintConfig n cyclicState "a/.eslintrc.json" := rfl
      rw [step]
      exact ih.1

/-! ### Claim theorems -/

/-- C1: evaluation of the code at the failing input.  In a workspace whose
only project has root `""`, the project starting point is the string
`"/.eslintrc.json"` while the workspace-root invocation uses
`".eslintrc.json"`; both address the same tree entry, but the
`updatedESLintConfigs` memo compares the raw strings, so the run merges the
same file twice and its override-extension list ends as
`["prettier", "prettier"]` — contradicting the claim that the merge is
applied at most once per config-file path per run. -/
theorem double_merge_on_root_spelled_project :
    configureESLint 2 { projects := [{ root := "" }] } [("/.eslintrc.json", emptyConfig)] =
      .ok { tree := [("/.eslintrc.json", mergeConfig (mergeConfig emptyConfig))],
            updatedESLintConfigs := ["/.eslintrc.json", ".eslintrc.json"] } ∧
    overridesExtList (mergeConfig (mergeConfig emptyConfig)) = ["prettier", "prettier"] := by
  decide

/-- C2 (counterexample): the claim that a broken-chain failure leaves no file
modified is false: on a two-project workspace where the first project's
terminal file is merged before the second project's broken `extends` is
discovered, the operation fails with the broken-chain error yet the first
file has already been rewritten (the source performs no rollback). -/
theorem broken_chain_run_keeps_earlier_write :
    configureESLint 2 { projects := [{ root := "p1" }, { root := "p2" }] } brokenTree =
      .err (.brokenExtendsChain "p2/.eslintrc.json" "p2/missing.json") brokenAborted ∧
    treeRead brokenAborted.tree "p1/.eslintrc.json" ≠ treeRead brokenTree "p1/.eslintrc.json" := by
  decide

/-- C2 (amended): when a visited config file's `extends` target does not
exist in the tree, the resolver fails with a broken-chain error identifying
both the referencing file and the missing target, the failing invocation
itself performs no write (the state it carries is exactly the entry state),
and the remaining starting points of the run are not processed; merges
already performed for earlier starting points, however, persist. -/
theorem broken_chain_aborts_without_write (fuel : Nat) (st : ResolveState)
    (p : String) (c : ESLintConfig) (rest : List String)
    (hmem : p ∉ st.updatedESLintConfigs) (hread : treeRead st.tree p = some c)
    (hext : strTruthy c.extendsField = true)
    (htgt : treeExists st.tree
      (normalize (dirname p ++ "/" ++ c.extendsField.getD "")) = false) :
    addPrettierPluginToESLintConfig fuel st p =
      .err (.brokenExtendsChain p
        (normalize (dirname p ++ "/" ++ c.extendsField.getD ""))) st ∧
    resolveSequence fuel st (p :: rest) =
      .err (.brokenExtendsChain p
        (normalize (dirname p ++ "/" ++ c.extendsField.getD ""))) st := by
  have h := addPrettier_broken fuel st p c hmem hread hext htgt
  exact ⟨h, by simp [resolveSequence, h]⟩

/-- Witness for C2 (amended): the broken-chain failure observed on a concrete
one-file tree, with the workspace-root candidate left unprocessed. -/
theorem broken_chain_aborts_without_write_witness :
    addPrettierPluginToESLintConfig 5 brokenWitnessState "p/.eslintrc.json" =
      .err (.brokenExtendsChain "p/.eslintrc.json" "p/missing.json") brokenWitnessState ∧
    resolveSequence 5 brokenWitnessState ["p/.eslintrc.json", ".eslintrc.json"] =
      .err (.brokenExtendsChain "p/.eslintrc.json" "p/missing.json") brokenWitnessState :=
  broken_chain_aborts_without_write 5 brokenWitnessState "p/.eslintrc.json"
    brokenCfg [".eslintrc.json"] (by decide) (by decide) (by decide) (by decide)

/-- C3: for an existing file `a` whose truthy `extends` resolves (relative to
the directory of `a`) to an existing terminal file, a fresh run starting at
`a` merges the terminal file — appending the directive to its
override-extension list — records only the terminal path, and leaves `a`
itself unchanged. -/
theorem chain_following_modifies_terminal_only (fuel : Nat) (t : FileTree)
    (a : String) (ca cb : ESLintConfig)
    (hreadA : treeRead t a = some ca)
    (hextA : strTruthy ca.extendsField = true)
    (hreadB : treeRead t (normalize (dirname a ++ "/" ++ ca.extendsField.getD "")) = some cb)
    (hextB : strTruthy cb.extendsField = false) :
    addPrettierPluginToESLintConfig (fuel + 1) { tree := t, updatedESLintConfigs := [] } a =
      .ok { tree := treeWrite t (normalize (dirname a ++ "/" ++ ca.extendsField.getD ""))
              (mergeConfig cb),
            updatedESLintConfigs := [normalize (dirname a ++ "/" ++ ca.extendsField.getD "")] } ∧
    treeRead (treeWrite t (normalize (dirname a ++ "/" ++ ca.extendsField.getD ""))
      (mergeConfig cb)) a = some ca ∧
    treeRead (treeWrite t (normalize (dirname a ++ "/" ++ ca.extendsField.getD ""))
      (mergeConfig cb)) (normalize (dirname a ++ "/" ++ ca.extendsField.getD "")) =
      some (mergeConfig cb) ∧
    overridesExtList (mergeConfig cb) = overridesExtList cb ++ ["prettier"] := by
  have hne : canonPath a ≠ canonPath (normalize (dirname a ++ "/" ++ ca.extendsField.getD "")) := by
    intro hc
    rw [treeRead_congr t a _ hc, hreadB] at hreadA
    cases hreadA
    rw [hextA] at hextB
    cases hextB
  have htgtB : treeExists t (normalize (dirname a ++ "/" ++ ca.extendsField.getD "")) = true := by
    rw [treeExists_eq_isSome, hreadB]; rfl
  have hfollow := addPrettier_follow fuel { tree := t, updatedESLintConfigs := [] } a ca
    (by simp) hreadA hextA htgtB
  have hmerge := addPrettier_merge fuel { tree := t, updatedESLintConfigs := [] }
    (normalize (dirname a ++ "/" ++ ca.extendsField.getD "")) cb (by simp) hreadB hextB
  refine ⟨?_, ?_, ?_, rfl⟩
  · rw [hfollow, hmerge]
    simp
  · rw [treeRead_treeWrite]
    exact if_neg hne ▸ (if_neg hne).trans hreadA
  · rw [treeRead_treeWrite]
    simp

/-- Witness for C3: the project file `projects/my-lib/.eslintrc.json` extends
`../../.eslintrc.json`; the run merges the workspace-root file (appending to
its existing `["foo"]` list) and leaves the project file unchanged. -/
theorem chain_following_modifies_terminal_only_witness :
    addPrettierPluginToESLintConfig 2 { tree := chainTree, updatedESLintConfigs := [] }
      "projects/my-lib/.eslintrc.json" =
      .ok { tree := treeWrite chainTree ".eslintrc.json" (mergeConfig fooConfig),
            updatedESLintConfigs := [".eslintrc.json"] } ∧
    treeRead (treeWrite chainTree ".eslintrc.json" (mergeConfig fooConfig))
      "projects/my-lib/.eslintrc.json" = some chainProjectCfg ∧
    overridesExtList (mergeConfig fooConfig) = ["foo", "prettier"] := by
  have h := chain_following_modifies_terminal_only 1 chainTree
    "projects/my-lib/.eslintrc.json" chainProjectCfg fooConfig
    (by decide) (by decide) (by decide) (by decide)
  exact ⟨h.1, h.2.1, h.2.2.2⟩

/-- C4: once every starting point has been processed without a thrown
exception, the rule succeeds exactly when at least one file was merged; with
zero merges it fails with the no-configuration-found error and none of the
dependent steps of the `ng-add` chain (dependency installation, Prettier
config and ignore files, VS Code configuration, install task) is
performed. -/
theorem no_configuration_found_postcondition (fuel : Nat)
    (workspace : WorkspaceDefinition) (tree : FileTree) (st : ResolveState)
    (hseq : resolveSequence fuel { tree := tree, updatedESLintConfigs := [] }
      (startingPoints workspace) = .ok st) :
    (configureESLint fuel workspace tree = .ok st ↔ st.updatedESLintConfigs ≠ []) ∧
    (st.updatedESLintConfigs = [] →
      configureESLint fuel workspace tree = .err .noConfigurationFound st ∧
      ngAdd fuel workspace tree =
        { eslintResult := .err .noConfigurationFound st,
          prettierDependenciesAdded := false, prettierConfigWritten := false,
          prettierIgnoreWritten := false, vsCodeConfigured := false,
          packageInstallTaskScheduled := false }) := by
  have hc := configureESLint_eq_resolveSequence fuel workspace tree
  rw [hseq] at hc
  have hc' : configureESLint fuel workspace tree =
      if st.updatedESLintConfigs.isEmpty then .err .noConfigurationFound st
      else .ok st := hc
  by_cases hemp : st.updatedESLintConfigs = []
  · have hcerr : configureESLint fuel workspace tree = .err .noConfigurationFound st := by
      rw [hc', hemp]
      rfl
    refine ⟨?_, fun _ => ⟨hcerr, ?_⟩⟩
    · rw [hcerr]
      simp [hemp]
    · unfold ngAdd
      rw [hcerr]
  · have hfalse : st.updatedESLintConfigs.isEmpty = false := by
      cases hl : st.updatedESLintConfigs with
      | nil => exact absurd hl hemp
      | cons x xs => rfl
    have hcok : configureESLint fuel workspace tree = .ok st := by
      rw [hc', hfalse]
      rfl
    exact ⟨by simp [hcok, hemp], fun h => absurd h hemp⟩

/-- Witness for C4: a workspace with one project and an entirely empty tree:
no candidate exists, zero files are merged, the rule fails with the
no-configuration-found error and every dependent step stays unperformed. -/
theorem no_configuration_found_postcondition_witness :
    configureESLint 1 { projects := [{ root := "p1" }] } [] =
      .err .noConfigurationFound { tree := [], updatedESLintConfigs := [] } ∧
    ngAdd 1 { projects := [{ root := "p1" }] } [] =
      { eslintResult := .err .noConfigurationFound { tree := [], updatedESLintConfigs := [] },
        prettierDependenciesAdded := false, prettierConfigWritten := false,
        prettierIgnoreWritten := false, vsCodeConfigured := false,
        packageInstallTaskScheduled := false } := by
  have h := no_configuration_found_postcondition 1 { projects := [{ root := "p1" }] }
    [] { tree := [], updatedESLintConfigs := [] } (by decide)
  exact h.2 rfl

/-- C5 (counterexample): on the cyclic workspace `a extends b extends a`, the
traversal granted a recursion budget of 24 hops — far above any plausible
safety ceiling for configuration trees of depth at most 3 — is still
recursing when the budget runs out, and no cyclic-chain error exists in the
code's error repertoire: the claim that the implementation imposes a
recursion-depth ceiling and fails with a CyclicExtendsChain error is false. -/
theorem cyclic_chain_no_ceiling_at_24 :
    addPrettierPluginToESLintConfig 24 cyclicState "a/.eslintrc.json" =
      .err .outOfFuel cyclicState :=
  (cyclic_run_exhausts 24).1

/-- C5 (amended): on a cyclic `extends` chain the source recursion never
terminates: for every recursion budget the embedded traversal exhausts the
budget without merging, throwing, or finishing — there is no depth ceiling
and no cyclic-chain error in the implementation. -/
theorem cyclic_chain_never_terminates (fuel : Nat) :
    addPrettierPluginToESLintConfig fuel cyclicState "a/.eslintrc.json" =
      .err .outOfFuel cyclicState :=
  (cyclic_run_exhausts fuel).1

/-- C6: merging a terminal file appends the fixed directive `"prettier"` to
the end of its override-extension list, preserving all pre-existing entries
and their order, creating the `overrides` block and its list when absent: in
particular the empty configuration becomes
`{"overrides": {"extends": ["prettier"]}}`. -/
theorem merge_appends_directive_preserving_order (fuel : Nat) (st : ResolveState)
    (p : String) (c : ESLintConfig)
    (hmem : p ∉ st.updatedESLintConfigs) (hread : treeRead st.tree p = some c)
    (hext : strTruthy c.extendsField = false) :
    addPrettierPluginToESLintConfig fuel st p =
      .ok { tree := treeWrite st.tree p (mergeConfig c),
            updatedESLintConfigs := st.updatedESLintConfigs ++ [p] } ∧
    overridesExtList (mergeConfig c) = overridesExtList c ++ ["prettier"] ∧
    mergeConfig emptyConfig =
      { extendsField := none,
        overrides := some { extendsList := some ["prettier"], otherFields := [] },
        otherFields := [], comments := [] } :=
  ⟨addPrettier_merge fuel st p c hmem hread hext, rfl, rfl⟩

/-- Witness for C6: merging the workspace-root file whose list already holds
`["foo"]` produces `["foo", "prettier"]`, never `["prettier", "foo"]`. -/
theorem merge_appends_directive_preserving_order_witness :
    addPrettierPluginToESLintConfig 1 fooState ".eslintrc.json" =
      .ok { tree := treeWrite fooState.tree ".eslintrc.json" (mergeConfig fooConfig),
            updatedESLintConfigs := [".eslintrc.json"] } ∧
    overridesExtList (mergeConfig fooConfig) = ["foo", "prettier"] := by
  have h := merge_appends_directive_preserving_order 1 fooState ".eslintrc.json"
    fooConfig (by decide) (by decide) (by decide)
  exact ⟨h.1, h.2.1⟩

/-- C7: the rule's control flow is exactly one resolver invocation per
project root, in workspace iteration order, followed by one invocation for
the workspace-root file, all threading the single run state (and with it the
single `updatedESLintConfigs` memo) created for the run; afterwards the
empty-memo check decides between failure and success. -/
theorem iteration_policy_fold_over_starting_points (fuel : Nat)
    (workspace : WorkspaceDefinition) (tree : FileTree) :
    configureESLint fuel workspace tree =
      match resolveSequence fuel { tree := tree, updatedESLintConfigs := [] }
          (startingPoints workspace) with
      | .ok st =>
        if st.updatedESLintConfigs.isEmpty then .err .noConfigurationFound st
        else .ok st
      | .err e st => .err e st :=
  configureESLint_eq_resolveSequence fuel workspace tree

/-- C8: across the read-modify-write cycle of a merge, every part of the
terminal file other than the override-extension list — the top-level
`extends`, all unrelated top-level fields, the unrelated fields inside the
`overrides` block, and the embedded comments carried by the comment-tolerant
parser — is preserved unmodified, and every other path of the tree is left
untouched. -/
theorem merge_preserves_unrelated_fields (fuel : Nat) (st : ResolveState)
    (p : String) (c : ESLintConfig)
    (hmem : p ∉ st.updatedESLintConfigs) (hread : treeRead st.tree p = some c)
    (hext : strTruthy c.extendsField = false) :
    addPrettierPluginToESLintConfig fuel st p =
      .ok { tree := treeWrite st.tree p (mergeConfig c),
            updatedESLintConfigs := st.updatedESLintConfigs ++ [p] } ∧
    (mergeConfig c).extendsField = c.extendsField ∧
    (mergeConfig c).otherFields = c.otherFields ∧
    (mergeConfig c).comments = c.comments ∧
    ((mergeConfig c).overrides.getD emptyOverrides).otherFields =
      ((c.overrides.getD emptyOverrides)).otherFields ∧
    treeRead (treeWrite st.tree p (mergeConfig c)) p = some (mergeConfig c) ∧
    ∀ q, canonPath q ≠ canonPath p →
      treeRead (treeWrite st.tree p (mergeConfig c)) q = treeRead st.tree q := by
  refine ⟨addPrettier_merge fuel st p c hmem hread hext, rfl, rfl, rfl, rfl, ?_, ?_⟩
  · rw [treeRead_treeWrite]
    simp
  · intro q hq
    rw [treeRead_treeWrite]
    exact if_neg hq

/-- Witness for C8: merging a root file that carries unrelated top-level
fields, unrelated override fields and comments keeps all of them, and the
other file of the tree is untouched. -/
theorem merge_preserves_unrelated_fields_witness :
    addPrettierPluginToESLintConfig 1 framedState ".eslintrc.json" =
      .ok { tree := treeWrite framedState.tree ".eslintrc.json" (mergeConfig framedConfig),
            updatedESLintConfigs := [".eslintrc.json"] } ∧
    (mergeConfig framedConfig).otherFields = [("root", "true"), ("rules", "custom")] ∧
    (mergeConfig framedConfig).comments = ["// workspace lint setup"] ∧
    treeRead (treeWrite framedState.tree ".eslintrc.json" (mergeConfig framedConfig))
      "other/.eslintrc.json" = some emptyConfig := by
  have h := merge_preserves_unrelated_fields 1 framedState ".eslintrc.json"
    framedConfig (by decide) (by decide) (by decide)
  exact ⟨h.1, h.2.2.1, h.2.2.2.1, by
    rw [h.2.2.2.2.2.2 "other/.eslintrc.json" (by decide)]; decide⟩

/-- C9: a candidate starting path that does not exist in the tree is a
tolerated no-op: the resolver performs no write and raises no error (the
state is returned unchanged), and the run proceeds directly to the next
starting point. -/
theorem missing_candidate_is_noop (fuel : Nat) (st : ResolveState) (p : String)
    (rest : List String) (hex : treeExists st.tree p = false) :
    addPrettierPluginToESLintConfig fuel st p = .ok st ∧
    resolveSequence fuel st (p :: rest) = resolveSequence fuel st rest := by
  have h := addPrettier_skip_missing fuel st p hex
  exact ⟨h, by simp [resolveSequence, h]⟩

/-- Witness for C9: a missing project candidate over the one-file tree is
skipped and the pass continues with the workspace-root candidate. -/
theorem missing_candidate_is_noop_witness :
    addPrettierPluginToESLintConfig 1 fooState "p1/.eslintrc.json" = .ok fooState ∧
    resolveSequence 1 fooState ["p1/.eslintrc.json", ".eslintrc.json"] =
      resolveSequence 1 fooState [".eslintrc.json"] :=
  missing_candidate_is_noop 1 fooState "p1/.eslintrc.json" [".eslintrc.json"] (by decide)

/-- C10: the merge never checks whether the directive is already present:
running the whole operation a second time over the tree produced by a first
complete run appends a second `"prettier"` entry, leaving
`["prettier", "prettier"]` — the operation is not idempotent across runs. -/
theorem second_run_appends_duplicate_directive :
    configureESLint 1 { projects := [] } [("/.eslintrc.json", emptyConfig)] = .ok runOnceState ∧
    configureESLint 1 { projects := [] } runOnceState.tree = .ok runTwiceState ∧
    (treeRead runTwiceState.tree ".eslintrc.json").map overridesExtList =
      some ["prettier", "prettier"] := by
  decide

end NgAddSchematic
